import Mathlib

/-!
# Shallow embedding of the ThinkShip-Core audit engine

This file embeds the audit orchestration engine of the repository
(`src/core/engine/auditRunner.js`, `src/core/engine/auditRegistry.js`,
`src/core/utils/url.js`, `src/core/utils/logs.js`, and the deep-analysis
heartbeat of `src/server/controllers/auditController.js`) into Lean 4 and
proves the specification claims about it.

Modelling conventions:
* JavaScript numbers are modelled as `Rat` (scores) or `Int`/`Nat`
  (progress percentages, counts); `Math.round x` becomes `⌊x + 1/2⌋`
  and `Math.ceil` becomes `Int.ceil` on `Rat`.
* A promise that may reject is `Except JSError α`; a rejection value's
  optional `.message` property is an `Option String`.
* The WHATWG `URL` platform parser is an explicit parameter
  `parseURL : String → Option ParsedUrl` (it is a host primitive, not
  repository code); `ParsedUrl` carries the `protocol` property and the
  `toString()` normalization.
* The synchronous `types.map` phase of `runAudits` eagerly calls
  `runAuditorSafely` (hence `auditor.run`) for every key it resolves
  before a later unresolvable key throws; the embedding therefore
  threads an instrumentation trace — the list of auditor keys whose
  `run()` was invoked — alongside the result.
* `Promise.all` is modelled by an explicit completion schedule
  `σ : List Nat`: promises settle in the order listed by `σ`, each
  settling writes its value into its own slot, and the join resolves
  with the slot array once every slot is filled.
-/

/-- `LOG_LEVEL` from `src/core/utils/logs.js`: the closed log-level enum. -/
inductive LogLevel where
  | INFO
  | WARNING
  | ERROR
deriving DecidableEq, Repr

/-- A `LogEntry`: a level together with a human-readable message. -/
structure LogEntry where
  level : LogLevel
  message : String
deriving DecidableEq, Repr

/-- The `PASS | WARN | FAIL` status strings of an `AuditResult`. -/
inductive AuditStatus where
  | PASS
  | WARN
  | FAIL
deriving DecidableEq, Repr

/-- `deriveStatus` from `src/core/utils/logs.js`:
any ERROR ⇒ FAIL; else any WARNING ⇒ WARN; else PASS. -/
def deriveStatus (logs : List LogEntry) : AuditStatus :=
  if logs.any (fun entry => entry.level = LogLevel.ERROR) then
    AuditStatus.FAIL
  else if logs.any (fun entry => entry.level = LogLevel.WARNING) then
    AuditStatus.WARN
  else
    AuditStatus.PASS

/-- The `details` payload of an `AuditResult`. The engine only inspects
`details.score` (kept when it is a finite number, modelled as
`Option Rat`); every other property is opaque to the engine and modelled
as an association list so that the empty object `{}` is expressible. -/
structure AuditDetails where
  score : Option Rat
  extra : List (String × String)
deriving DecidableEq, Repr

/-- The empty JavaScript object `{}` used as `details` of a synthetic
failure result. -/
def emptyDetails : AuditDetails := { score := none, extra := [] }

/-- An `AuditResult` as produced by one auditor for one run. -/
structure AuditResult where
  key : String
  name : String
  status : AuditStatus
  details : AuditDetails
  logs : List LogEntry
deriving DecidableEq, Repr

/-- A JavaScript error/rejection value as observed by the engine:
either the dedicated `InvalidUrlError` of `src/core/utils/url.js`
(distinguishable by kind, message `"Invalid URL: <input>"`), or a
generic rejection whose optional `message` property is `Option String`.
The `pending` constructor is not a JS error: it marks a `Promise.all`
join whose completion schedule never settles some promise, i.e. a call
that never resolves (unreachable for well-formed schedules). -/
inductive JSError where
  | invalidUrl (input : String)
  | error (message : Option String)
  | pending
deriving DecidableEq, Repr

/-- The `.message` property of a rejection value. -/
def JSError.message : JSError → Option String
  | JSError.invalidUrl input => some ("Invalid URL: " ++ input)
  | JSError.error m => m
  | JSError.pending => none

/-- The `input` argument of `runAudits`: a raw URL plus the optional
`types` list (`none` models both `undefined` and `null`, the values the
`??` operator defaults). Auditor-specific extra fields are opaque to the
engine and omitted. -/
structure AuditInput where
  url : String
  types : Option (List String)
deriving DecidableEq, Repr

/-- An `Auditor`: key, display name, and the asynchronous `run`
capability, which may reject. -/
structure Auditor where
  key : String
  name : String
  run : AuditInput → Except JSError AuditResult

/-- The result of the platform `new URL(input)` when parsing succeeds:
the `protocol` property (e.g. `"https:"`) and the `toString()`
normalization. -/
structure ParsedUrl where
  protocol : String
  normalized : String
deriving DecidableEq, Repr

/-- `HTTP_PROTOCOLS` from `src/core/utils/url.js`. -/
def HTTP_PROTOCOLS : List String := ["http:", "https:"]

/-- `assertValidUrl` from `src/core/utils/url.js`, parameterized by the
platform URL parser: throws `InvalidUrlError` when parsing fails or the
protocol is not http/https, otherwise returns `parsed.toString()`. -/
def assertValidUrl (parseURL : String → Option ParsedUrl) (input : String) :
    Except JSError String :=
  match parseURL input with
  | none => Except.error (JSError.invalidUrl input)
  | some parsed =>
      if parsed.protocol ∈ HTTP_PROTOCOLS then
        Except.ok parsed.normalized
      else
        Except.error (JSError.invalidUrl input)

/-- First-match association lookup, the observable behaviour of the
`Map` inside `AuditRegistry`. -/
def lookupAuditor : List (String × Auditor) → String → Option Auditor
  | [], _ => none
  | (k, a) :: rest, key => if k = key then some a else lookupAuditor rest key

/-- `AuditRegistry` from `src/core/engine/auditRegistry.js`: a `Map`
from key to auditor, modelled as an insertion-ordered association
list. -/
structure AuditRegistry where
  auditors : List (String × Auditor)

/-- `AuditRegistry.get`. -/
def AuditRegistry.get (r : AuditRegistry) (key : String) : Option Auditor :=
  lookupAuditor r.auditors key

/-- `AuditRegistry.keys`: the registered keys in insertion order. -/
def AuditRegistry.keys (r : AuditRegistry) : List String :=
  r.auditors.map Prod.fst

/-- `AuditRegistry.register`. A throw leaves the map unchanged, so the
model returns the raised error (if any) together with the resulting
state. A falsy `auditor.key` (the empty string) is rejected first;
a duplicate key throws `Auditor "<key>" is already registered`;
otherwise the auditor is appended (JS `Map.set` insertion order). -/
def AuditRegistry.register (r : AuditRegistry) (a : Auditor) :
    Option JSError × AuditRegistry :=
  if a.key = "" then
    (some (JSError.error (some "Auditor key is required")), r)
  else if (r.get a.key).isSome then
    (some (JSError.error (some ("Auditor \"" ++ a.key ++ "\" is already registered"))), r)
  else
    (none, { auditors := r.auditors ++ [(a.key, a)] })

/-- The empty registry (`new AuditRegistry()`). -/
def emptyRegistry : AuditRegistry := { auditors := [] }

/-- A sequence of `register` calls applied in order, starting from a
given registry; a call that throws leaves the registry unchanged and the
sequence continues (each call is an independent statement). -/
def applyRegisters (ops : List Auditor) (r : AuditRegistry) : AuditRegistry :=
  ops.foldl (fun acc a => (acc.register a).2) r

/-- The synthetic `AuditResult` the `catch` handler of
`runAuditorSafely` builds for a rejected auditor: the auditor's key and
name, `status = FAIL`, `details = {}`, and a single ERROR log carrying
`error?.message ?? "Unknown auditor error"`. -/
def syntheticFailure (auditor : Auditor) (error : JSError) : AuditResult :=
  { key := auditor.key
    name := auditor.name
    status := AuditStatus.FAIL
    details := emptyDetails
    logs := [{ level := LogLevel.ERROR
               message := error.message.getD "Unknown auditor error" }] }

/-- `runAuditorSafely` from `src/core/engine/auditRunner.js`:
`auditor.run(input).catch(error => synthetic FAIL result)`. -/
def runAuditorSafely (auditor : Auditor) (input : AuditInput) : AuditResult :=
  match auditor.run input with
  | Except.ok result => result
  | Except.error error => syntheticFailure auditor error

/-- The error thrown by `runAudits` on an unresolvable key. -/
def unknownAuditType (t : String) : JSError :=
  JSError.error (some ("Unknown audit type: " ++ t))

/-- The synchronous `types.map` phase of `runAudits`: each callback in
order resolves its key in the registry — throwing
`Unknown audit type: <key>` if absent, which aborts the map — and
otherwise immediately calls `runAuditorSafely` (which invokes
`auditor.run`). The first component is the map's outcome; the second is
the instrumentation trace: the keys of the auditors whose `run()` was
invoked, in invocation order. -/
def launchAudits (registry : AuditRegistry) (input : AuditInput) :
    List String → Except JSError (List AuditResult) × List String
  | [] => (Except.ok [], [])
  | t :: ts =>
      match registry.get t with
      | none => (Except.error (unknownAuditType t), [])
      | some auditor =>
          let result := runAuditorSafely auditor input
          let rest := launchAudits registry input ts
          (rest.1.map (fun rs => result :: rs), auditor.key :: rest.2)

/-- `Promise.all` under an explicit completion schedule `σ`: promises
settle in the order `σ` lists their indices, each settling writes its
value into its own slot of the result array, and the join resolves with
the array once every slot is filled — `none` when some slot never
settles (the join then never resolves). Out-of-range entries of `σ` are
no-ops. -/
def promiseAllSched (σ : List Nat) (ps : List α) : Option (List α) :=
  (σ.foldl (fun slots i => slots.set i ps[i]?) (List.replicate ps.length none)).mapM id

/-- A summary finding: a WARNING/ERROR log entry tagged with its
originating audit's key and name. -/
structure Finding where
  level : LogLevel
  auditKey : String
  auditName : String
  message : String
deriving DecidableEq, Repr

/-- The comparator passed by `summarizeLogs` to `findings.sort`:
`0` on equal levels, `-1` when the left is ERROR, else `1`. -/
def findingCompare (a b : Finding) : Int :=
  if a.level = b.level then 0 else if a.level = LogLevel.ERROR then -1 else 1

/-- Stable insertion of one element under a JS comparator: the element
passes over every earlier element it does not strictly precede. -/
def insertCmp (cmp : α → α → Int) (x : α) : List α → List α
  | [] => [x]
  | y :: ys => if cmp x y < 0 then x :: y :: ys else y :: insertCmp cmp x ys

/-- `Array.prototype.sort(cmp)` — Node's sort is stable, modelled by
stable insertion sort. -/
def jsSort (cmp : α → α → Int) (l : List α) : List α :=
  l.foldl (fun acc x => insertCmp cmp x acc) []

/-- The `scoring` component of a summary. -/
structure Scoring where
  score : Int
  outOf : Nat
deriving DecidableEq, Repr

/-- The `summary` object of a Report. -/
structure Summary where
  totalAudits : Nat
  infoCount : Nat
  warningCount : Nat
  errorCount : Nat
  overallScore : Option Int
  scoring : Option Scoring
  topFindings : List Finding
deriving DecidableEq, Repr

/-- `Math.round` on a JavaScript number: round half toward +∞. -/
def jsRound (q : Rat) : Int := ⌊q + 1 / 2⌋

/-- The mutable accumulator of `summarizeLogs`' main loop. -/
structure SummaryAcc where
  infoCount : Nat
  warningCount : Nat
  errorCount : Nat
  findings : List Finding
  scoreParts : List Rat
deriving DecidableEq, Repr

/-- The inner `for (const entry of audit.logs)` loop body of
`summarizeLogs`: bump the matching level counter, and push a tagged
finding for WARNING/ERROR entries. -/
def summarizeEntry (audit : AuditResult) (acc : SummaryAcc) (entry : LogEntry) :
    SummaryAcc :=
  let acc :=
    match entry.level with
    | LogLevel.INFO => { acc with infoCount := acc.infoCount + 1 }
    | LogLevel.WARNING => { acc with warningCount := acc.warningCount + 1 }
    | LogLevel.ERROR => { acc with errorCount := acc.errorCount + 1 }
  if entry.level = LogLevel.WARNING ∨ entry.level = LogLevel.ERROR then
    { acc with
        findings := acc.findings ++
          [{ level := entry.level
             auditKey := audit.key
             auditName := audit.name
             message := entry.message }] }
  else
    acc

/-- The outer `for (const audit of audits)` loop body of
`summarizeLogs`: keep `details.score` when it is a finite number, then
walk the audit's logs. -/
def summarizeAudit (acc : SummaryAcc) (audit : AuditResult) : SummaryAcc :=
  let acc :=
    match audit.details.score with
    | some s => { acc with scoreParts := acc.scoreParts ++ [s] }
    | none => acc
  audit.logs.foldl (summarizeEntry audit) acc

/-- `summarizeLogs` from `src/core/engine/auditRunner.js`. -/
def summarizeLogs (audits : List AuditResult) : Summary :=
  let acc := audits.foldl summarizeAudit
    { infoCount := 0, warningCount := 0, errorCount := 0, findings := [], scoreParts := [] }
  let sorted := jsSort findingCompare acc.findings
  let overallScore : Option Int :=
    if acc.scoreParts.length = 0 then none
    else some (jsRound (acc.scoreParts.foldl (· + ·) 0 / acc.scoreParts.length))
  { totalAudits := audits.length
    infoCount := acc.infoCount
    warningCount := acc.warningCount
    errorCount := acc.errorCount
    overallScore := overallScore
    scoring := overallScore.map (fun s => { score := s, outOf := 100 })
    topFindings := sorted.take 5 }

/-- A Report: the normalized url, the run's bounding timestamps (wall
clock readings, passed in explicitly), the per-auditor results in
request order, and the derived summary. -/
structure Report where
  url : String
  startedAt : String
  finishedAt : String
  audits : List AuditResult
  summary : Summary
deriving DecidableEq, Repr

/-- `input.types ?? registry.keys()`: the requested key sequence — the
caller's `types` when present (even when it is the empty array), the
full registry key list only when `types` is absent. -/
def requestedTypes (input : AuditInput) (registry : AuditRegistry) : List String :=
  input.types.getD registry.keys

/-- `runAudits` from `src/core/engine/auditRunner.js`, instrumented:
validate the url, default `types` to the registry's keys when absent,
run the synchronous map phase (`launchAudits`), join via `Promise.all`
under the completion schedule `σ`, and assemble the Report. The second
component is the trace of auditor keys whose `run()` was invoked. -/
def runAuditsT (σ : List Nat) (parseURL : String → Option ParsedUrl)
    (startedAt finishedAt : String) (input : AuditInput) (registry : AuditRegistry) :
    Except JSError Report × List String :=
  match assertValidUrl parseURL input.url with
  | Except.error e => (Except.error e, [])
  | Except.ok url =>
      let types := requestedTypes input registry
      let launched := launchAudits registry { input with url := url } types
      match launched.1 with
      | Except.error e => (Except.error e, launched.2)
      | Except.ok results =>
          match promiseAllSched σ results with
          | none => (Except.error JSError.pending, launched.2)
          | some audits =>
              (Except.ok
                { url := url
                  startedAt := startedAt
                  finishedAt := finishedAt
                  audits := audits
                  summary := summarizeLogs audits }, launched.2)

/-- `runAudits`: the value the caller observes (the instrumentation
trace dropped). -/
def runAudits (σ : List Nat) (parseURL : String → Option ParsedUrl)
    (startedAt finishedAt : String) (input : AuditInput) (registry : AuditRegistry) :
    Except JSError Report :=
  (runAuditsT σ parseURL startedAt finishedAt input registry).1

/-- `DEEP_ANALYSIS_PROGRESS_INTERVAL_MS` from
`src/server/controllers/auditController.js`. -/
def DEEP_ANALYSIS_PROGRESS_INTERVAL_MS : Nat := 4000

/-- The per-tick increment of `elapsedSeconds` in the heartbeat:
`Math.round(DEEP_ANALYSIS_PROGRESS_INTERVAL_MS / 1000)`. -/
def heartbeatTickSeconds : Int :=
  jsRound ((DEEP_ANALYSIS_PROGRESS_INTERVAL_MS : Rat) / 1000)

/-- `elapsedSeconds` after the `k`-th interval tick (`k ≥ 1`) of
`startDeepAnalysisHeartbeat`. -/
def heartbeatElapsedSeconds (k : Nat) : Int := k * heartbeatTickSeconds

/-- The `heartbeatProgress` value emitted on the `k`-th tick:
`Math.min(94, 80 + Math.ceil(elapsedSeconds / 4))`. -/
def heartbeatProgress (k : Nat) : Int :=
  min 94 (80 + ⌈(heartbeatElapsedSeconds k : Rat) / 4⌉)

/-- A `(status, progress, message)` stage template from
`STATUS_TEMPLATES` in `src/server/controllers/auditController.js`. -/
structure StatusTemplate where
  status : String
  progress : Int
  message : String
deriving DecidableEq, Repr

/-- `STATUS_TEMPLATES.deep_analysis_progress`. -/
def deepAnalysisProgressTemplate : StatusTemplate :=
  { status := "running", progress := 85, message := "Groq deep analysis in progress." }

/-- `STATUS_TEMPLATES.deep_analysis_completed`: the next hard stage
after the heartbeat; its progress floor is 95. -/
def deepAnalysisCompletedTemplate : StatusTemplate :=
  { status := "running", progress := 95, message := "Groq deep analysis completed." }

/-! ## Supporting lemmas -/

theorem lookupAuditor_eq_none_iff (l : List (String × Auditor)) (key : String) :
    lookupAuditor l key = none ↔ key ∉ l.map Prod.fst := by
  induction l with
  | nil => simp [lookupAuditor]
  | cons p rest ih =>
      obtain ⟨k, a⟩ := p
      by_cases hk : k = key
      · subst hk
        simp [lookupAuditor]
      · have hstep : lookupAuditor ((k, a) :: rest) key = lookupAuditor rest key := by
          simp [lookupAuditor, hk]
        rw [hstep]
        simp only [List.map_cons, List.mem_cons, not_or]
        constructor
        · intro h
          exact ⟨fun he => hk he.symm, ih.mp h⟩
        · intro h
          exact ih.mpr h.2

theorem registry_get_eq_none_iff (r : AuditRegistry) (key : String) :
    r.get key = none ↔ key ∉ r.keys := by
  exact lookupAuditor_eq_none_iff r.auditors key

theorem register_ok_keys (r : AuditRegistry) (a : Auditor)
    (h : (r.register a).1 = none) :
    (r.register a).2.keys = r.keys ++ [a.key] := by
  unfold AuditRegistry.register at h ⊢
  by_cases hk : a.key = ""
  · simp [hk] at h
  · by_cases hdup : (r.get a.key).isSome
    · simp [hk, hdup] at h
    · simp [hk, hdup, AuditRegistry.keys]

theorem register_keeps_nodup (r : AuditRegistry) (a : Auditor)
    (h : r.keys.Nodup) : (r.register a).2.keys.Nodup := by
  unfold AuditRegistry.register
  by_cases hk : a.key = ""
  · simpa [hk] using h
  · by_cases hdup : (r.get a.key).isSome
    · simpa [hk, hdup] using h
    · have hnot : a.key ∉ r.keys := by
        rw [← registry_get_eq_none_iff]
        exact Option.not_isSome_iff_eq_none.mp hdup
      simp only [hk, hdup, if_false, Bool.false_eq_true]
      have hkeys : ({ auditors := r.auditors ++ [(a.key, a)] } : AuditRegistry).keys =
          r.keys ++ [a.key] := by
        simp [AuditRegistry.keys]
      rw [hkeys, List.nodup_append]
      refine ⟨h, List.nodup_singleton _, ?_⟩
      intro x hx hx'
      simp at hx'
      exact hnot (hx' ▸ hx)

theorem applyRegisters_nodup (ops : List Auditor) (r : AuditRegistry)
    (h : r.keys.Nodup) : (applyRegisters ops r).keys.Nodup := by
  induction ops generalizing r with
  | nil => exact h
  | cons a rest ih =>
      exact ih ((r.register a).2) (register_keeps_nodup r a h)

theorem register_no_empty_key (r : AuditRegistry) (a : Auditor)
    (h : "" ∉ r.keys) : "" ∉ (r.register a).2.keys := by
  unfold AuditRegistry.register
  by_cases hk : a.key = ""
  · simpa [hk] using h
  · by_cases hdup : (r.get a.key).isSome
    · simpa [hk, hdup] using h
    · simp only [hk, hdup, if_false, Bool.false_eq_true]
      simp only [AuditRegistry.keys, List.map_append, List.mem_append]
      rintro (hmem | hmem)
      · exact h hmem
      · simp at hmem
        exact hk hmem.symm

theorem applyRegisters_no_empty_key (ops : List Auditor) (r : AuditRegistry)
    (h : "" ∉ r.keys) : "" ∉ (applyRegisters ops r).keys := by
  induction ops generalizing r with
  | nil => exact h
  | cons a rest ih => exact ih ((r.register a).2) (register_no_empty_key r a h)

theorem foldl_set_length (σ : List Nat) (ps : List α) (init : List (Option α)) :
    (σ.foldl (fun slots i => slots.set i ps[i]?) init).length = init.length := by
  induction σ generalizing init with
  | nil => rfl
  | cons i rest ih => simp [List.foldl_cons, ih, List.length_set]

theorem foldl_set_not_mem (σ : List Nat) (ps : List α) (init : List (Option α))
    (j : Nat) (hj : j ∉ σ) :
    (σ.foldl (fun slots i => slots.set i ps[i]?) init)[j]? = init[j]? := by
  induction σ generalizing init with
  | nil => rfl
  | cons i rest ih =>
      simp only [List.foldl_cons]
      rw [ih _ (fun h => hj (List.mem_cons_of_mem _ h))]
      refine List.getElem?_set_ne ?_
      intro h
      exact hj (by rw [← h]; exact List.mem_cons_self i rest)

theorem foldl_set_mem (σ : List Nat) (ps : List α) (init : List (Option α))
    (j : Nat) (hlen : init.length = ps.length) (hj : j ∈ σ) (hlt : j < ps.length) :
    (σ.foldl (fun slots i => slots.set i ps[i]?) init)[j]? = some ps[j]? := by
  induction σ generalizing init with
  | nil => cases hj
  | cons i rest ih =>
      simp only [List.foldl_cons]
      by_cases hmem : j ∈ rest
      · exact ih _ (by simp [hlen]) hmem
      · have hij : i = j := by
          rcases List.mem_cons.mp hj with h | h
          · exact h.symm
          · exact absurd h hmem
        subst hij
        rw [foldl_set_not_mem rest ps _ i hmem]
        exact List.getElem?_set_eq_of_lt _ (by omega)

theorem mapM_id_map_some (ps : List α) : (ps.map some).mapM id = some ps := by
  induction ps with
  | nil => rfl
  | cons x xs ih =>
      rw [List.map_cons, List.mapM_cons, ih]
      rfl

theorem promiseAllSched_perm (σ : List Nat) (ps : List α)
    (h : σ.Perm (List.range ps.length)) : promiseAllSched σ ps = some ps := by
  unfold promiseAllSched
  have hfold :
      σ.foldl (fun slots i => slots.set i ps[i]?) (List.replicate ps.length none) =
        ps.map some := by
    apply List.ext_getElem?
    intro j
    by_cases hlt : j < ps.length
    · rw [foldl_set_mem σ ps _ j (by simp) (h.mem_iff.mpr (List.mem_range.mpr hlt)) hlt]
      simp [List.getElem?_map, List.getElem?_eq_getElem hlt]
    · have h1 : (σ.foldl (fun slots i => slots.set i ps[i]?)
          (List.replicate ps.length none)).length = ps.length := by
        simp [foldl_set_length]
      rw [List.getElem?_eq_none (by omega), List.getElem?_eq_none (by simp; omega)]
  rw [hfold, mapM_id_map_some]

theorem launchAudits_resolved (registry : AuditRegistry) (input : AuditInput) :
    ∀ ts : List String, (∀ t ∈ ts, (registry.get t).isSome) →
    ∃ rs : List AuditResult,
      (launchAudits registry input ts).1 = Except.ok rs ∧
      rs.length = ts.length ∧
      (∀ (i : Nat) t a, ts[i]? = some t → registry.get t = some a →
        rs[i]? = some (runAuditorSafely a input)) := by
  intro ts
  induction ts with
  | nil =>
      intro _
      exact ⟨[], rfl, rfl, by intro i t a h; simp at h⟩
  | cons t0 rest ih =>
      intro hall
      obtain ⟨a0, ha0⟩ := Option.isSome_iff_exists.mp (hall t0 (List.mem_cons_self _ _))
      obtain ⟨rs', hok, hlen, hidx⟩ := ih (fun t ht => hall t (List.mem_cons_of_mem _ ht))
      refine ⟨runAuditorSafely a0 input :: rs', ?_, by simp [hlen], ?_⟩
      · show (launchAudits registry input (t0 :: rest)).1 = _
        unfold launchAudits
        rw [ha0]
        simp only []
        rw [hok]
        rfl
      · intro i t a hts hget
        match i with
        | 0 =>
            simp at hts
            subst hts
            rw [ha0] at hget
            injection hget with hget
            subst hget
            simp
        | Nat.succ j =>
            simp only [List.getElem?_cons_succ] at hts ⊢
            exact hidx j t a hts hget

theorem launchAudits_unknown (registry : AuditRegistry) (input : AuditInput)
    (t : String) (ts2 : List String) (hunk : registry.get t = none) :
    ∀ ts1 : List String, (∀ s ∈ ts1, (registry.get s).isSome) →
    ∃ tr : List String,
      launchAudits registry input (ts1 ++ t :: ts2) =
        (Except.error (unknownAuditType t), tr) ∧
      tr.length = ts1.length ∧
      (∀ (i : Nat) s a, ts1[i]? = some s → registry.get s = some a →
        tr[i]? = some a.key) := by
  intro ts1
  induction ts1 with
  | nil =>
      intro _
      refine ⟨[], ?_, rfl, by intro i s a h; simp at h⟩
      show launchAudits registry input (t :: ts2) = _
      unfold launchAudits
      rw [hunk]
  | cons s0 rest ih =>
      intro hall
      obtain ⟨a0, ha0⟩ := Option.isSome_iff_exists.mp (hall s0 (List.mem_cons_self _ _))
      obtain ⟨tr', herr, hlen, hidx⟩ := ih (fun s hs => hall s (List.mem_cons_of_mem _ hs))
      refine ⟨a0.key :: tr', ?_, by simp [hlen], ?_⟩
      · show launchAudits registry input (s0 :: (rest ++ t :: ts2)) = _
        unfold launchAudits
        rw [ha0]
        simp only []
        rw [herr]
        rfl
      · intro i s a hts hget
        match i with
        | 0 =>
            simp at hts
            subst hts
            rw [ha0] at hget
            injection hget with hget
            subst hget
            simp
        | Nat.succ j =>
            simp only [List.getElem?_cons_succ] at hts ⊢
            exact hidx j s a hts hget

theorem summarizeEntry_scoreParts (audit : AuditResult) (acc : SummaryAcc)
    (entry : LogEntry) : (summarizeEntry audit acc entry).scoreParts = acc.scoreParts := by
  unfold summarizeEntry
  rcases entry with ⟨level, message⟩
  cases level <;> simp

theorem logs_foldl_scoreParts (audit : AuditResult) :
    ∀ (logs : List LogEntry) (acc : SummaryAcc),
      (logs.foldl (summarizeEntry audit) acc).scoreParts = acc.scoreParts := by
  intro logs
  induction logs with
  | nil => intro acc; rfl
  | cons e rest ih =>
      intro acc
      rw [List.foldl_cons, ih, summarizeEntry_scoreParts]

theorem summarizeAudit_scoreParts (acc : SummaryAcc) (audit : AuditResult) :
    (summarizeAudit acc audit).scoreParts =
      acc.scoreParts ++ (audit.details.score).toList := by
  unfold summarizeAudit
  cases hs : audit.details.score with
  | none => simp [logs_foldl_scoreParts]
  | some s => simp [logs_foldl_scoreParts]

theorem audits_foldl_scoreParts :
    ∀ (audits : List AuditResult) (acc : SummaryAcc),
      (audits.foldl summarizeAudit acc).scoreParts =
        acc.scoreParts ++ audits.filterMap (fun a => a.details.score) := by
  intro audits
  induction audits with
  | nil => intro acc; simp
  | cons a rest ih =>
      intro acc
      rw [List.foldl_cons, ih, summarizeAudit_scoreParts, List.filterMap_cons]
      cases hs : a.details.score <;> simp [hs]

/-- The finding built by `summarizeLogs` for log entry `e` of `audit`. -/
def mkFinding (audit : AuditResult) (e : LogEntry) : Finding :=
  { level := e.level, auditKey := audit.key, auditName := audit.name,
    message := e.message }

/-- Whether a log entry is surfaced as a finding. -/
def isFindingLevel (e : LogEntry) : Bool :=
  e.level = LogLevel.WARNING ∨ e.level = LogLevel.ERROR

theorem summarizeEntry_findings (audit : AuditResult) (acc : SummaryAcc)
    (entry : LogEntry) :
    (summarizeEntry audit acc entry).findings =
      acc.findings ++ if isFindingLevel entry then [mkFinding audit entry] else [] := by
  unfold summarizeEntry isFindingLevel mkFinding
  rcases entry with ⟨level, message⟩
  cases level <;> simp

theorem logs_foldl_findings (audit : AuditResult) :
    ∀ (logs : List LogEntry) (acc : SummaryAcc),
      (logs.foldl (summarizeEntry audit) acc).findings =
        acc.findings ++ (logs.filter isFindingLevel).map (mkFinding audit) := by
  intro logs
  induction logs with
  | nil => intro acc; simp
  | cons e rest ih =>
      intro acc
      rw [List.foldl_cons, ih, summarizeEntry_findings]
      by_cases he : isFindingLevel e
      · simp [List.filter_cons, he]
      · simp [List.filter_cons, he]

theorem summarizeAudit_findings (acc : SummaryAcc) (audit : AuditResult) :
    (summarizeAudit acc audit).findings =
      acc.findings ++ (audit.logs.filter isFindingLevel).map (mkFinding audit) := by
  unfold summarizeAudit
  cases hs : audit.details.score with
  | none => simp [logs_foldl_findings]
  | some s => simp [logs_foldl_findings]

/-- All WARNING/ERROR log entries across `audits`, in encounter order,
each tagged with its originating audit. -/
def collectedFindings (audits : List AuditResult) : List Finding :=
  audits.flatMap (fun a => (a.logs.filter isFindingLevel).map (mkFinding a))

theorem audits_foldl_findings :
    ∀ (audits : List AuditResult) (acc : SummaryAcc),
      (audits.foldl summarizeAudit acc).findings =
        acc.findings ++ collectedFindings audits := by
  intro audits
  induction audits with
  | nil => intro acc; simp [collectedFindings]
  | cons a rest ih =>
      intro acc
      rw [List.foldl_cons, ih, summarizeAudit_findings]
      simp [collectedFindings]

theorem collectedFindings_levels (audits : List AuditResult) :
    ∀ f ∈ collectedFindings audits,
      f.level = LogLevel.WARNING ∨ f.level = LogLevel.ERROR := by
  intro f hf
  simp only [collectedFindings, List.mem_flatMap, List.mem_map, List.mem_filter] at hf
  obtain ⟨a, _, e, ⟨_, he⟩, hfe⟩ := hf
  subst hfe
  simpa [isFindingLevel, mkFinding] using he

theorem insertCmp_error (x : Finding) (hx : x.level = LogLevel.ERROR) :
    ∀ (es ws : List Finding),
      (∀ e ∈ es, e.level = LogLevel.ERROR) →
      (∀ w ∈ ws, w.level = LogLevel.WARNING) →
      insertCmp findingCompare x (es ++ ws) = (es ++ [x]) ++ ws := by
  intro es
  induction es with
  | nil =>
      intro ws _ hws
      cases ws with
      | nil => rfl
      | cons w ws' =>
          have hw : w.level = LogLevel.WARNING := hws w (List.mem_cons_self _ _)
          have hcmp : findingCompare x w = -1 := by
            simp [findingCompare, hx, hw]
          simp [insertCmp, hcmp]
  | cons e es' ih =>
      intro ws hes hws
      have he : e.level = LogLevel.ERROR := hes e (List.mem_cons_self _ _)
      have hcmp : findingCompare x e = 0 := by
        simp [findingCompare, hx, he]
      simp only [List.cons_append, insertCmp, hcmp]
      rw [if_neg (by norm_num)]
      simp only [List.append_eq]
      rw [ih ws (fun f hf => hes f (List.mem_cons_of_mem _ hf)) hws]

theorem insertCmp_warning (x : Finding) (hx : x.level = LogLevel.WARNING) :
    ∀ (es ws : List Finding),
      (∀ e ∈ es, e.level = LogLevel.ERROR) →
      (∀ w ∈ ws, w.level = LogLevel.WARNING) →
      insertCmp findingCompare x (es ++ ws) = es ++ (ws ++ [x]) := by
  intro es
  induction es with
  | nil =>
      intro ws _ hws
      simp only [List.nil_append]
      induction ws with
      | nil => rfl
      | cons w ws' ihw =>
          have hw : w.level = LogLevel.WARNING := hws w (List.mem_cons_self _ _)
          have hcmp : findingCompare x w = 0 := by
            simp [findingCompare, hx, hw]
          simp only [insertCmp, hcmp]
          rw [if_neg (by norm_num)]
          rw [ihw (fun f hf => hws f (List.mem_cons_of_mem _ hf))]
          simp
  | cons e es' ih =>
      intro ws hes hws
      have he : e.level = LogLevel.ERROR := hes e (List.mem_cons_self _ _)
      have hcmp : findingCompare x e = 1 := by
        simp [findingCompare, hx, he]
      simp only [List.cons_append, insertCmp, hcmp]
      rw [if_neg (by norm_num)]
      simp only [List.append_eq]
      rw [ih ws (fun f hf => hes f (List.mem_cons_of_mem _ hf)) hws]

theorem jsSort_foldl_partition :
    ∀ (l es ws : List Finding),
      (∀ e ∈ es, e.level = LogLevel.ERROR) →
      (∀ w ∈ ws, w.level = LogLevel.WARNING) →
      (∀ f ∈ l, f.level = LogLevel.WARNING ∨ f.level = LogLevel.ERROR) →
      l.foldl (fun acc x => insertCmp findingCompare x acc) (es ++ ws) =
        (es ++ l.filter (fun f => f.level = LogLevel.ERROR)) ++
          (ws ++ l.filter (fun f => f.level = LogLevel.WARNING)) := by
  intro l
  induction l with
  | nil =>
      intro es ws _ _ _
      simp
  | cons x rest ih =>
      intro es ws hes hws hl
      rcases hl x (List.mem_cons_self _ _) with hx | hx
      · rw [List.foldl_cons, insertCmp_warning x hx es ws hes hws]
        have hstep := ih es (ws ++ [x])
          hes
          (by
            intro w hw
            rcases List.mem_append.mp hw with h | h
            · exact hws w h
            · simp at h
              rw [h, hx])
          (fun f hf => hl f (List.mem_cons_of_mem _ hf))
        rw [hstep]
        have hfe : List.filter (fun f => decide (f.level = LogLevel.ERROR)) (x :: rest) =
            List.filter (fun f => decide (f.level = LogLevel.ERROR)) rest := by
          simp [List.filter_cons, hx]
        have hfw : List.filter (fun f => decide (f.level = LogLevel.WARNING)) (x :: rest) =
            x :: List.filter (fun f => decide (f.level = LogLevel.WARNING)) rest := by
          simp [List.filter_cons, hx]
        rw [hfe, hfw]
        simp
      · rw [List.foldl_cons, insertCmp_error x hx es ws hes hws]
        have hstep := ih (es ++ [x]) ws
          (by
            intro e he
            rcases List.mem_append.mp he with h | h
            · exact hes e h
            · simp at h
              rw [h, hx])
          hws
          (fun f hf => hl f (List.mem_cons_of_mem _ hf))
        rw [hstep]
        have hfe : List.filter (fun f => decide (f.level = LogLevel.ERROR)) (x :: rest) =
            x :: List.filter (fun f => decide (f.level = LogLevel.ERROR)) rest := by
          simp [List.filter_cons, hx]
        have hfw : List.filter (fun f => decide (f.level = LogLevel.WARNING)) (x :: rest) =
            List.filter (fun f => decide (f.level = LogLevel.WARNING)) rest := by
          simp [List.filter_cons, hx]
        rw [hfe, hfw]
        simp

theorem jsSort_findings (l : List Finding)
    (hl : ∀ f ∈ l, f.level = LogLevel.WARNING ∨ f.level = LogLevel.ERROR) :
    jsSort findingCompare l =
      l.filter (fun f => f.level = LogLevel.ERROR) ++
        l.filter (fun f => f.level = LogLevel.WARNING) := by
  unfold jsSort
  have h := jsSort_foldl_partition l [] [] (by intro e he; cases he)
    (by intro w hw; cases hw) hl
  simpa using h

theorem runAudits_resolved
    (σ : List Nat) (parseURL : String → Option ParsedUrl)
    (startedAt finishedAt : String) (input : AuditInput) (registry : AuditRegistry)
    (url : String)
    (hurl : assertValidUrl parseURL input.url = Except.ok url)
    (hres : ∀ t ∈ requestedTypes input registry, (registry.get t).isSome)
    (hσ : σ.Perm (List.range (requestedTypes input registry).length)) :
    ∃ rs : List AuditResult,
      runAudits σ parseURL startedAt finishedAt input registry =
        Except.ok { url := url, startedAt := startedAt, finishedAt := finishedAt,
                    audits := rs, summary := summarizeLogs rs } ∧
      rs.length = (requestedTypes input registry).length ∧
      (∀ (i : Nat) t a, (requestedTypes input registry)[i]? = some t →
        registry.get t = some a →
        rs[i]? = some (runAuditorSafely a { input with url := url })) := by
  obtain ⟨rs, hok, hlen, hidx⟩ :=
    launchAudits_resolved registry { input with url := url }
      (requestedTypes input registry) hres
  refine ⟨rs, ?_, hlen, hidx⟩
  unfold runAudits runAuditsT
  rw [hurl]
  simp only [requestedTypes] at hok ⊢
  rw [hok]
  have hperm : σ.Perm (List.range rs.length) := by
    rw [hlen]
    simpa [requestedTypes] using hσ
  have hp := promiseAllSched_perm σ rs hperm
  simp [hp]

theorem promiseAllSched_nil (σ : List Nat) :
    promiseAllSched σ ([] : List α) = some [] := by
  unfold promiseAllSched
  have hfold : σ.foldl (fun slots i => slots.set i ([] : List α)[i]?) [] = [] := by
    induction σ with
    | nil => rfl
    | cons i rest ih => simpa [List.set_nil] using ih
  have hrep : List.replicate ([] : List α).length (none : Option α) = [] := rfl
  rw [hrep, hfold]
  rfl

theorem launchAudits_error_shape (registry : AuditRegistry) (input : AuditInput) :
    ∀ (ts : List String) (e : JSError),
      (launchAudits registry input ts).1 = Except.error e →
      ∃ t, e = unknownAuditType t := by
  intro ts
  induction ts with
  | nil =>
      intro e h
      exact absurd h (by simp [launchAudits])
  | cons t0 rest ih =>
      intro e h
      unfold launchAudits at h
      cases hg : registry.get t0 with
      | none =>
          rw [hg] at h
          simp at h
          exact ⟨t0, h.symm⟩
      | some a =>
          rw [hg] at h
          simp only [] at h
          cases hr : (launchAudits registry input rest).1 with
          | ok rs => rw [hr] at h; simp [Except.map] at h
          | error e' =>
              rw [hr] at h
              simp [Except.map] at h
              exact h ▸ ih e' hr

theorem summarizeLogs_overallScore (audits : List AuditResult) :
    (summarizeLogs audits).overallScore =
      if (audits.filterMap (fun a => a.details.score)).length = 0 then none
      else
        some (jsRound ((audits.filterMap (fun a => a.details.score)).sum /
          ((audits.filterMap (fun a => a.details.score)).length : Rat))) := by
  unfold summarizeLogs
  simp only [audits_foldl_scoreParts, List.nil_append, List.sum_eq_foldl]

theorem summarizeLogs_scoring (audits : List AuditResult) :
    (summarizeLogs audits).scoring =
      (summarizeLogs audits).overallScore.map
        (fun s => { score := s, outOf := 100 }) := by
  unfold summarizeLogs
  simp only []

theorem heartbeatProgress_eq (n : Nat) : heartbeatProgress n = min 94 (80 + n) := by
  unfold heartbeatProgress heartbeatElapsedSeconds
  have ht : heartbeatTickSeconds = 4 := by
    unfold heartbeatTickSeconds jsRound DEEP_ANALYSIS_PROGRESS_INTERVAL_MS
    rw [Int.floor_eq_iff] <;> norm_num
  rw [ht]
  have hq : (((n : Int) * 4 : Int) : Rat) / 4 = (n : Rat) := by
    push_cast
    rw [mul_div_assoc]
    norm_num
  rw [hq]
  norm_num

/-! ## Concrete fixtures for witnesses and counterexamples -/

/-- A concrete platform URL parser accepting a single https URL. -/
def demoParse : String → Option ParsedUrl := fun s =>
  if s = "https://example.com" then
    some { protocol := "https:", normalized := "https://example.com/" }
  else none

/-- A concrete auditor that always resolves with a WARNING log and
score 80. -/
def demoWarnAuditor : Auditor :=
  { key := "a"
    name := "Auditor A"
    run := fun _ => Except.ok
      { key := "a", name := "Auditor A", status := AuditStatus.WARN,
        details := { score := some 80, extra := [] },
        logs := [{ level := LogLevel.WARNING, message := "w" }] } }

/-- A concrete auditor that always rejects with message `"boom"`. -/
def demoFailAuditor : Auditor :=
  { key := "b"
    name := "Auditor B"
    run := fun _ => Except.error (JSError.error (some "boom")) }

/-- A registry holding the two demo auditors. -/
def demoRegistry : AuditRegistry :=
  { auditors := [("a", demoWarnAuditor), ("b", demoFailAuditor)] }

/-- A demo input requesting every registered auditor. -/
def demoInput : AuditInput := { url := "https://example.com", types := none }

/-! ## Claims -/

/-- C6: for every list of log entries, `deriveStatus` returns FAIL iff
the list contains at least one ERROR entry; else WARN iff it contains at
least one WARNING entry; else PASS — and the Runner's synthetic failure
result (exactly one ERROR log paired with status FAIL) satisfies this
same rule. -/
theorem C6_status_derivation (logs : List LogEntry) (a : Auditor) (e : JSError) :
    (deriveStatus logs = AuditStatus.FAIL ↔
      ∃ l ∈ logs, l.level = LogLevel.ERROR) ∧
    (deriveStatus logs = AuditStatus.WARN ↔
      (¬ ∃ l ∈ logs, l.level = LogLevel.ERROR) ∧
        ∃ l ∈ logs, l.level = LogLevel.WARNING) ∧
    (deriveStatus logs = AuditStatus.PASS ↔
      (¬ ∃ l ∈ logs, l.level = LogLevel.ERROR) ∧
        ¬ ∃ l ∈ logs, l.level = LogLevel.WARNING) ∧
    ((syntheticFailure a e).status = AuditStatus.FAIL ∧
      (syntheticFailure a e).logs.length = 1 ∧
      (∀ l ∈ (syntheticFailure a e).logs, l.level = LogLevel.ERROR) ∧
      deriveStatus (syntheticFailure a e).logs = (syntheticFailure a e).status) := by
  unfold deriveStatus
  by_cases hE : ∃ l ∈ logs, l.level = LogLevel.ERROR
  · have hany : logs.any (fun entry => entry.level = LogLevel.ERROR) = true := by
      simpa [List.any_eq_true] using hE
    refine ⟨by simp [hany, hE], by simp [hany, hE], by simp [hany, hE], ?_⟩
    simp [syntheticFailure, deriveStatus]
  · have hany : logs.any (fun entry => entry.level = LogLevel.ERROR) = false := by
      simpa [List.any_eq_false] using fun l hl => by
        intro hlev
        exact hE ⟨l, hl, hlev⟩
    by_cases hW : ∃ l ∈ logs, l.level = LogLevel.WARNING
    · have hanyW : logs.any (fun entry => entry.level = LogLevel.WARNING) = true := by
        simpa [List.any_eq_true] using hW
      refine ⟨by simp [hany, hanyW, hE, hW], by simp [hany, hanyW, hE, hW],
        by simp [hany, hanyW, hE, hW], ?_⟩
      simp [syntheticFailure, deriveStatus]
    · have hanyW : logs.any (fun entry => entry.level = LogLevel.WARNING) = false := by
        simpa [List.any_eq_false] using fun l hl => by
          intro hlev
          exact hW ⟨l, hl, hlev⟩
      refine ⟨by simp [hany, hanyW, hE, hW], by simp [hany, hanyW, hE, hW],
        by simp [hany, hanyW, hE, hW], ?_⟩
      simp [syntheticFailure, deriveStatus]

/-- C9: the heartbeat progress values
`min(94, 80 + ceil(elapsedSeconds / 4))` over successive ticks form a
monotonically non-decreasing sequence that stays strictly below 95, the
progress floor of the `deep_analysis_completed` stage. -/
theorem C9_heartbeat_monotone_capped (k : Nat) :
    heartbeatProgress (k + 1) ≤ heartbeatProgress (k + 2) ∧
    heartbeatProgress (k + 1) < deepAnalysisCompletedTemplate.progress := by
  rw [heartbeatProgress_eq, heartbeatProgress_eq]
  have hfloor : deepAnalysisCompletedTemplate.progress = 95 := rfl
  rw [hfloor]
  constructor
  · push_cast
    omega
  · push_cast
    omega

/-- C5: `summary.topFindings` consists of exactly the WARNING- and
ERROR-level log entries across all audits, each tagged with its
originating auditKey and auditName, with every ERROR-level finding
before every WARNING-level finding, encounter order preserved within
each level, truncated to the first 5. -/
theorem C5_topFindings (audits : List AuditResult) :
    (summarizeLogs audits).topFindings =
      ((collectedFindings audits).filter (fun f => f.level = LogLevel.ERROR) ++
        (collectedFindings audits).filter (fun f => f.level = LogLevel.WARNING)).take 5 := by
  unfold summarizeLogs
  simp only [audits_foldl_findings, List.nil_append]
  rw [jsSort_findings _ (collectedFindings_levels audits)]

/-- C4: if no audit has a finite numeric `details.score` then
`summary.overallScore` and `summary.scoring` are both null; otherwise
`overallScore` is the arithmetic mean of the collected scores rounded to
the nearest integer, and `scoring = { score: overallScore, outOf: 100 }`. -/
theorem C4_scoring_aggregation (audits : List AuditResult) :
    (audits.filterMap (fun a => a.details.score) = [] →
      (summarizeLogs audits).overallScore = none ∧
      (summarizeLogs audits).scoring = none) ∧
    (audits.filterMap (fun a => a.details.score) ≠ [] →
      (summarizeLogs audits).overallScore =
        some (jsRound ((audits.filterMap (fun a => a.details.score)).sum /
          ((audits.filterMap (fun a => a.details.score)).length : Rat))) ∧
      (summarizeLogs audits).scoring =
        some (Scoring.mk (jsRound ((audits.filterMap (fun a => a.details.score)).sum /
          ((audits.filterMap (fun a => a.details.score)).length : Rat))) 100)) := by
  constructor
  · intro h
    have h0 : (audits.filterMap (fun a => a.details.score)).length = 0 := by
      simp [h]
    rw [summarizeLogs_scoring, summarizeLogs_overallScore, if_pos h0]
    exact ⟨rfl, rfl⟩
  · intro h
    have h0 : ¬ (audits.filterMap (fun a => a.details.score)).length = 0 := by
      simpa [List.length_eq_zero] using h
    rw [summarizeLogs_scoring, summarizeLogs_overallScore, if_neg h0]
    exact ⟨rfl, rfl⟩

/-- C4 witness: two audits with scores 80 and 100 yield
`overallScore = 90` and `scoring = {score: 90, outOf: 100}`; an audit
list with no numeric score yields null for both. -/
theorem C4_scoring_aggregation_witness :
    ((([] : List AuditResult).filterMap (fun a => a.details.score) = [] →
      (summarizeLogs []).overallScore = none ∧
      (summarizeLogs []).scoring = none) ∧
    (([] : List AuditResult).filterMap (fun a => a.details.score) ≠ [] →
      (summarizeLogs []).overallScore =
        some (jsRound ((([] : List AuditResult).filterMap (fun a => a.details.score)).sum /
          ((([] : List AuditResult).filterMap (fun a => a.details.score)).length : Rat))) ∧
      (summarizeLogs []).scoring =
        some (Scoring.mk (jsRound ((([] : List AuditResult).filterMap (fun a => a.details.score)).sum /
          ((([] : List AuditResult).filterMap (fun a => a.details.score)).length : Rat))) 100))) ∧
    (summarizeLogs
        [{ key := "x", name := "X", status := AuditStatus.PASS,
           details := { score := some 80, extra := [] }, logs := [] },
         { key := "y", name := "Y", status := AuditStatus.PASS,
           details := { score := some 100, extra := [] }, logs := [] }]).overallScore =
      some 90 := by
  refine ⟨C4_scoring_aggregation [], ?_⟩
  have h := (C4_scoring_aggregation
    [{ key := "x", name := "X", status := AuditStatus.PASS,
       details := { score := some 80, extra := [] }, logs := [] },
     { key := "y", name := "Y", status := AuditStatus.PASS,
       details := { score := some 100, extra := [] }, logs := [] }]).2 (by decide)
  rw [h.1]
  have hfm : List.filterMap (fun (a : AuditResult) => a.details.score)
      [{ key := "x", name := "X", status := AuditStatus.PASS,
         details := { score := some 80, extra := [] }, logs := [] },
       { key := "y", name := "Y", status := AuditStatus.PASS,
         details := { score := some 100, extra := [] }, logs := [] }] =
      [(80 : Rat), 100] := rfl
  rw [hfm]
  congr 1
  unfold jsRound
  have hsum : ([(80 : Rat), 100].sum) = 180 := by norm_num
  have hlen : ((([(80 : Rat), 100] : List Rat).length : Nat) : Rat) = 2 := by norm_num
  rw [hsum, hlen]
  rw [Int.floor_eq_iff] <;> norm_num

/-- C10: calling `runAudits` with `types` equal to the empty array
returns a Report with no audits and an all-zero/null summary; the
default of running every registered auditor applies only when `types`
is absent, not when it is an empty list. -/
theorem C10_empty_types (σ : List Nat) (parseURL : String → Option ParsedUrl)
    (startedAt finishedAt : String) (input : AuditInput) (registry : AuditRegistry)
    (url : String)
    (hurl : assertValidUrl parseURL input.url = Except.ok url)
    (htypes : input.types = some []) :
    runAudits σ parseURL startedAt finishedAt input registry =
      Except.ok { url := url, startedAt := startedAt, finishedAt := finishedAt,
                  audits := [],
                  summary := { totalAudits := 0, infoCount := 0, warningCount := 0,
                               errorCount := 0, overallScore := none,
                               scoring := none, topFindings := [] } } ∧
    requestedTypes input registry = [] ∧
    (∀ inp : AuditInput, inp.types = none →
      requestedTypes inp registry = registry.keys) := by
  have hreq : requestedTypes input registry = [] := by
    simp [requestedTypes, htypes]
  refine ⟨?_, hreq, ?_⟩
  · unfold runAudits runAuditsT
    rw [hurl]
    simp only [hreq]
    have hlaunch : launchAudits registry { input with url := url } [] =
        (Except.ok [], []) := rfl
    rw [hlaunch]
    simp only [promiseAllSched_nil σ]
    rfl
  · intro inp hinp
    simp [requestedTypes, hinp]

/-- C1: for every run that passes URL and key validation, a rejecting
auditor's slot is replaced by the synthetic FAIL result (the auditor's
key and name, `details = {}`, a single ERROR log carrying the failure
message), every other auditor's slot carries its own result, the number
of audits equals the number of requested keys, and the call resolves
(never rejects because of a per-auditor failure). -/
theorem C1_failure_isolation (σ : List Nat) (parseURL : String → Option ParsedUrl)
    (startedAt finishedAt : String) (input : AuditInput) (registry : AuditRegistry)
    (url : String)
    (hurl : assertValidUrl parseURL input.url = Except.ok url)
    (hres : ∀ t ∈ requestedTypes input registry, (registry.get t).isSome)
    (hσ : σ.Perm (List.range (requestedTypes input registry).length)) :
    ∃ report : Report,
      runAudits σ parseURL startedAt finishedAt input registry = Except.ok report ∧
      report.audits.length = (requestedTypes input registry).length ∧
      (∀ (i : Nat) t a, (requestedTypes input registry)[i]? = some t →
        registry.get t = some a →
        ((∀ e, a.run { input with url := url } = Except.error e →
            report.audits[i]? = some (syntheticFailure a e)) ∧
         (∀ r, a.run { input with url := url } = Except.ok r →
            report.audits[i]? = some r))) := by
  obtain ⟨rs, hok, hlen, hidx⟩ :=
    runAudits_resolved σ parseURL startedAt finishedAt input registry url hurl hres hσ
  refine ⟨_, hok, hlen, ?_⟩
  intro i t a hit hga
  have h := hidx i t a hit hga
  constructor
  · intro e herr
    show rs[i]? = _
    rw [h]
    unfold runAuditorSafely
    rw [herr]
  · intro r hr
    show rs[i]? = _
    rw [h]
    unfold runAuditorSafely
    rw [hr]

/-- C1 witness: at the demo registry (auditor "a" resolves, auditor "b"
rejects with "boom"), the run resolves with two audits where slot 1 is
the synthetic failure and slot 0 the first auditor's own result. -/
theorem C1_failure_isolation_witness :
    ∃ report : Report,
      runAudits [0, 1] demoParse "s" "f" demoInput demoRegistry =
        Except.ok report ∧
      report.audits.length = (requestedTypes demoInput demoRegistry).length ∧
      (∀ (i : Nat) t a, (requestedTypes demoInput demoRegistry)[i]? = some t →
        demoRegistry.get t = some a →
        ((∀ e, a.run { demoInput with url := "https://example.com/" } = Except.error e →
            report.audits[i]? = some (syntheticFailure a e)) ∧
         (∀ r, a.run { demoInput with url := "https://example.com/" } = Except.ok r →
            report.audits[i]? = some r))) :=
  C1_failure_isolation [0, 1] demoParse "s" "f" demoInput demoRegistry
    "https://example.com/" rfl (by decide) (by decide)

/-- C2: for every resolvable requested key sequence and every completion
schedule that settles all auditors (any interleaving), the returned
Report's audits list exactly one result per requested key, in the
requested order — `report.audits.map (·.key)` equals the requested
sequence, not the completion order — provided every resolved auditor
honours the contract of echoing its own key. -/
theorem C2_order_preservation (σ : List Nat) (parseURL : String → Option ParsedUrl)
    (startedAt finishedAt : String) (input : AuditInput) (registry : AuditRegistry)
    (url : String)
    (hurl : assertValidUrl parseURL input.url = Except.ok url)
    (hσ : σ.Perm (List.range (requestedTypes input registry).length))
    (hres : ∀ t ∈ requestedTypes input registry, ∃ a, registry.get t = some a ∧
      a.key = t ∧
      ∀ r, a.run { input with url := url } = Except.ok r → r.key = t) :
    ∃ report : Report,
      runAudits σ parseURL startedAt finishedAt input registry = Except.ok report ∧
      report.audits.map (fun r => r.key) = requestedTypes input registry := by
  have hsome : ∀ t ∈ requestedTypes input registry, (registry.get t).isSome := by
    intro t ht
    obtain ⟨a, ha, -, -⟩ := hres t ht
    simp [ha]
  obtain ⟨rs, hok, hlen, hidx⟩ :=
    runAudits_resolved σ parseURL startedAt finishedAt input registry url hurl
      hsome hσ
  refine ⟨_, hok, ?_⟩
  show rs.map (fun r => r.key) = requestedTypes input registry
  apply List.ext_getElem?
  intro i
  by_cases hi : i < (requestedTypes input registry).length
  · have hti : (requestedTypes input registry)[i]? =
        some ((requestedTypes input registry)[i]) := List.getElem?_eq_getElem hi
    obtain ⟨a, ha, hkey, hrun⟩ :=
      hres ((requestedTypes input registry)[i]) (List.getElem?_mem hti)
    have hrsi := hidx i _ a hti ha
    rw [List.getElem?_map, hrsi, hti]
    unfold runAuditorSafely
    cases hr : a.run { input with url := url } with
    | ok r => simp [hrun r hr]
    | error e => simp [syntheticFailure, hkey]
  · rw [List.getElem?_eq_none (by simpa [hlen] using le_of_not_lt hi),
      List.getElem?_eq_none (le_of_not_lt hi)]

/-- C2 witness: at the demo registry, under both completion schedules
of the two auditors, the audits keys come back in request order. -/
theorem C2_order_preservation_witness :
    (∃ report : Report,
      runAudits [1, 0] demoParse "s" "f" demoInput demoRegistry =
        Except.ok report ∧
      report.audits.map (fun r => r.key) = requestedTypes demoInput demoRegistry) :=
  C2_order_preservation [1, 0] demoParse "s" "f" demoInput demoRegistry
    "https://example.com/" rfl (by decide)
    (by
      intro t ht
      simp only [requestedTypes, demoInput, demoRegistry] at ht
      have ht' : t = "a" ∨ t = "b" := by
        simpa [AuditRegistry.keys, demoWarnAuditor, demoFailAuditor] using ht
      rcases ht' with h | h
      · subst h
        refine ⟨demoWarnAuditor, rfl, rfl, ?_⟩
        intro r hr
        simp only [demoWarnAuditor] at hr
        injection hr with hr
        rw [← hr]
      · subst h
        refine ⟨demoFailAuditor, rfl, rfl, ?_⟩
        intro r hr
        simp [demoFailAuditor] at hr)

/-- C7: when the url does not parse as a well-formed absolute
http/https URL, `runAudits` rejects immediately with the dedicated
`InvalidUrlError` (message `"Invalid URL: <input>"`) and no auditor is
launched; when it is valid, the run proceeds with the normalized form,
which is the url echoed in the returned Report, and the call never
rejects with an `InvalidUrlError`. -/
theorem C7_url_validation (σ : List Nat) (parseURL : String → Option ParsedUrl)
    (startedAt finishedAt : String) (input : AuditInput) (registry : AuditRegistry) :
    ((parseURL input.url = none ∨
        (∀ p, parseURL input.url = some p → p.protocol ∉ HTTP_PROTOCOLS)) →
      runAuditsT σ parseURL startedAt finishedAt input registry =
        (Except.error (JSError.invalidUrl input.url), []) ∧
      (JSError.invalidUrl input.url).message =
        some ("Invalid URL: " ++ input.url)) ∧
    (∀ p, parseURL input.url = some p → p.protocol ∈ HTTP_PROTOCOLS →
      (∀ report, runAudits σ parseURL startedAt finishedAt input registry =
          Except.ok report → report.url = p.normalized) ∧
      (∀ s, runAudits σ parseURL startedAt finishedAt input registry ≠
          Except.error (JSError.invalidUrl s))) := by
  constructor
  · intro hbad
    have hurl : assertValidUrl parseURL input.url =
        Except.error (JSError.invalidUrl input.url) := by
      unfold assertValidUrl
      rcases hbad with hnone | hproto
      · rw [hnone]
      · cases hp : parseURL input.url with
        | none => rfl
        | some p => simp [hproto p hp]
    constructor
    · unfold runAuditsT
      rw [hurl]
    · rfl
  · intro p hp hproto
    have hurl : assertValidUrl parseURL input.url = Except.ok p.normalized := by
      unfold assertValidUrl
      rw [hp]
      simp [hproto]
    constructor
    · intro report hok
      unfold runAudits runAuditsT at hok
      rw [hurl] at hok
      simp only [] at hok
      cases hl : (launchAudits registry { input with url := p.normalized }
          (requestedTypes input registry)).1 with
      | error e => rw [hl] at hok; simp at hok
      | ok results =>
          rw [hl] at hok
          simp only [] at hok
          cases hps : promiseAllSched σ results with
          | none => rw [hps] at hok; simp at hok
          | some audits =>
              rw [hps] at hok
              simp only [Except.ok.injEq] at hok
              rw [← hok]
    · intro s hbad
      unfold runAudits runAuditsT at hbad
      rw [hurl] at hbad
      simp only [] at hbad
      cases hl : (launchAudits registry { input with url := p.normalized }
          (requestedTypes input registry)).1 with
      | error e =>
          rw [hl] at hbad
          simp only [Except.error.injEq] at hbad
          obtain ⟨t, ht⟩ := launchAudits_error_shape registry
            { input with url := p.normalized } (requestedTypes input registry) e hl
          rw [ht] at hbad
          exact absurd hbad.symm (by simp [unknownAuditType])
      | ok results =>
          rw [hl] at hbad
          simp only [] at hbad
          cases hps : promiseAllSched σ results with
          | none =>
              rw [hps] at hbad
              simp only [Except.error.injEq] at hbad
              exact absurd hbad.symm (by simp)
          | some audits => rw [hps] at hbad; simp at hbad

/-- C7 witness: the demo parser rejects `"nope"` (InvalidUrlError, no
auditor launched) and accepts `"https://example.com"`, whose normalized
form is echoed as the Report url. -/
theorem C7_url_validation_witness :
    (runAuditsT [0, 1] demoParse "s" "f"
        { url := "nope", types := none } demoRegistry =
      (Except.error (JSError.invalidUrl "nope"), []) ∧
     (JSError.invalidUrl "nope").message = some ("Invalid URL: " ++ "nope")) ∧
    (∀ report, runAudits [0, 1] demoParse "s" "f" demoInput demoRegistry =
        Except.ok report → report.url = "https://example.com/") := by
  constructor
  · exact (C7_url_validation [0, 1] demoParse "s" "f"
      { url := "nope", types := none } demoRegistry).1 (Or.inl rfl)
  · exact ((C7_url_validation [0, 1] demoParse "s" "f" demoInput
      demoRegistry).2 { protocol := "https:", normalized := "https://example.com/" }
      rfl (by decide)).1

/-- A demo input whose second requested key is not in the registry. -/
def demoUnknownInput : AuditInput :=
  { url := "https://example.com", types := some ["a", "zzz"] }

/-- C3 counterexample: requesting `["a", "zzz"]` against the demo
registry (which registers "a" but not "zzz") rejects with
`Unknown audit type: zzz` — but the registered auditor "a" HAS had its
`run()` invoked (the invocation trace is `["a"]`, not `[]`),
contradicting the claim that no registered auditor's `run()` is invoked
regardless of where the unknown key appears. -/
theorem C3_counterexample :
    (runAuditsT [0, 1] demoParse "s" "f" demoUnknownInput demoRegistry).1 =
      Except.error (JSError.error (some "Unknown audit type: zzz")) ∧
    (runAuditsT [0, 1] demoParse "s" "f" demoUnknownInput demoRegistry).2 =
      ["a"] ∧
    ¬ (runAuditsT [0, 1] demoParse "s" "f" demoUnknownInput demoRegistry).2 = [] := by
  refine ⟨rfl, rfl, by decide⟩

/-- C3 (amended): when a requested key is not in the registry, the run
rejects with `Unknown audit type: <key>` naming the first unresolvable
key; the auditors for the keys preceding it have their `run()` invoked
(their results are discarded), and no auditor at or after the first
unknown key is invoked. -/
theorem C3_unknown_key_rejection (σ : List Nat)
    (parseURL : String → Option ParsedUrl) (startedAt finishedAt : String)
    (input : AuditInput) (registry : AuditRegistry) (url : String)
    (ts1 : List String) (t : String) (ts2 : List String)
    (hurl : assertValidUrl parseURL input.url = Except.ok url)
    (htypes : requestedTypes input registry = ts1 ++ t :: ts2)
    (hres : ∀ s ∈ ts1, (registry.get s).isSome)
    (hunk : registry.get t = none) :
    ∃ tr : List String,
      runAuditsT σ parseURL startedAt finishedAt input registry =
        (Except.error (unknownAuditType t), tr) ∧
      tr.length = ts1.length ∧
      (∀ (i : Nat) s a, ts1[i]? = some s → registry.get s = some a →
        tr[i]? = some a.key) := by
  obtain ⟨tr, herr, hlen, hidx⟩ :=
    launchAudits_unknown registry { input with url := url } t ts2 hunk ts1 hres
  refine ⟨tr, ?_, hlen, hidx⟩
  unfold runAuditsT
  rw [hurl]
  simp only [htypes]
  rw [herr]

/-- C3 amended witness: at the demo input `["a", "zzz"]` the run
rejects with `Unknown audit type: zzz` and the invocation trace is
exactly the key of the auditor registered before the unknown key. -/
theorem C3_unknown_key_rejection_witness :
    ∃ tr : List String,
      runAuditsT [0, 1] demoParse "s" "f" demoUnknownInput demoRegistry =
        (Except.error (unknownAuditType "zzz"), tr) ∧
      tr.length = (["a"] : List String).length ∧
      (∀ (i : Nat) s a, (["a"] : List String)[i]? = some s →
        demoRegistry.get s = some a → tr[i]? = some a.key) :=
  C3_unknown_key_rejection [0, 1] demoParse "s" "f" demoUnknownInput
    demoRegistry "https://example.com/" ["a"] "zzz" [] rfl rfl
    (by decide) rfl

/-- C8: the registry keeps its key-to-auditor mapping unique under
every sequence of operations: registering a present key throws
`already registered` and leaves the mapping unchanged; a successful
registration appends the key (insertion order); `get` of an
unregistered key is undefined; and register-built registries never
contain the falsy empty key, so the duplicate check is the one that
fires for every reachable duplicate. -/
theorem C8_registry_invariants :
    (∀ (r : AuditRegistry) (a b : Auditor), a.key ≠ "" →
      r.get a.key = some b →
      r.register a =
        (some (JSError.error
          (some ("Auditor \"" ++ a.key ++ "\" is already registered"))), r)) ∧
    (∀ ops : List Auditor, (applyRegisters ops emptyRegistry).keys.Nodup) ∧
    (∀ (r : AuditRegistry) (k : String), r.get k = none ↔ k ∉ r.keys) ∧
    (∀ (r : AuditRegistry) (a : Auditor), (r.register a).1 = none →
      (r.register a).2.keys = r.keys ++ [a.key]) ∧
    (∀ ops : List Auditor, "" ∉ (applyRegisters ops emptyRegistry).keys) := by
  refine ⟨?_, ?_, ?_, ?_, ?_⟩
  · intro r a b hkey hdup
    unfold AuditRegistry.register
    rw [if_neg hkey, if_pos (by simp [hdup])]
  · intro ops
    exact applyRegisters_nodup ops emptyRegistry
      (by simp [emptyRegistry, AuditRegistry.keys])
  · intro r k
    exact registry_get_eq_none_iff r k
  · intro r a h
    exact register_ok_keys r a h
  · intro ops
    exact applyRegisters_no_empty_key ops emptyRegistry
      (by simp [emptyRegistry, AuditRegistry.keys])

/-- C8 witness: re-registering key "a" on the demo registry throws the
`already registered` error and leaves the registry unchanged; `get` of
an unknown key is characterized as absence from `keys()`; and any
register sequence from the empty registry keeps the keys unique. -/
theorem C8_registry_invariants_witness :
    (demoRegistry.register demoWarnAuditor =
      (some (JSError.error
        (some ("Auditor \"" ++ demoWarnAuditor.key ++ "\" is already registered"))),
        demoRegistry)) ∧
    (demoRegistry.get "zzz" = none ↔ "zzz" ∉ demoRegistry.keys) ∧
    (applyRegisters [demoWarnAuditor, demoFailAuditor, demoWarnAuditor]
        emptyRegistry).keys.Nodup :=
  ⟨C8_registry_invariants.1 demoRegistry demoWarnAuditor demoWarnAuditor
      (by decide) rfl,
    C8_registry_invariants.2.2.1 demoRegistry "zzz",
    C8_registry_invariants.2.1 [demoWarnAuditor, demoFailAuditor, demoWarnAuditor]⟩

/-- C10 witness: a run with `types: []` against the demo registry
returns an empty Report with the all-zero/null summary, while an absent
`types` resolves to the full registry key list. -/
theorem C10_empty_types_witness :
    (runAudits [0, 1] demoParse "s" "f"
        { url := "https://example.com", types := some [] } demoRegistry =
      Except.ok { url := "https://example.com/", startedAt := "s", finishedAt := "f",
                  audits := [],
                  summary := { totalAudits := 0, infoCount := 0, warningCount := 0,
                               errorCount := 0, overallScore := none,
                               scoring := none, topFindings := [] } } ∧
    requestedTypes { url := "https://example.com", types := some [] } demoRegistry = [] ∧
    (∀ inp : AuditInput, inp.types = none →
      requestedTypes inp demoRegistry = demoRegistry.keys)) :=
  C10_empty_types [0, 1] demoParse "s" "f"
    { url := "https://example.com", types := some [] } demoRegistry
    "https://example.com/" rfl rfl
